import Mathlib

/-!
Verification development for the GinService structured logging engine.

The definitions below are a shallow embedding of the Go packages
`pkg/logger` (levels, entries, formatters, the logger engine) and
`internal/logger` (configuration, console/file/multi handlers).
Machine-level effects are made explicit:

* a handler is modelled as a function from an entry to the list of byte
  writes it performs (each tagged with its sink) plus an optional error;
* the logger's write path returns the performed writes, the list of
  entries passed to the configured handler, and an optional process exit
  code (`os.Exit` in `Fatal`);
* wall-clock reads (`time.Now()`) and runtime introspection
  (`runtime.Caller`) are environment inputs threaded as parameters;
* Go byte slices are modelled as lists of characters, and Go maps as
  association lists with overwrite-on-insert semantics.
-/

set_option maxHeartbeats 1000000

namespace GinLog

/-- Severity level; in the source an integer enumeration
    Debug=0, Info=1, Warn=2, Error=3, Fatal=4. -/
abbrev Level := Int

def DebugLevel : Level := 0

def InfoLevel : Level := 1

def WarnLevel : Level := 2

def ErrorLevel : Level := 3

def FatalLevel : Level := 4

/-- String rendering of a level (the source's `Level.String`). -/
def levelString (l : Level) : String :=
  if l = DebugLevel then "DEBUG"
  else if l = InfoLevel then "INFO"
  else if l = WarnLevel then "WARN"
  else if l = ErrorLevel then "ERROR"
  else if l = FatalLevel then "FATAL"
  else "UNKNOWN"

/-- The closed universe of serializable field values (Go `interface{}`
    values actually used by the engine: strings, integers, booleans,
    nil, and the string arrays produced for stack traces). -/
inductive JValue where
  | str (s : String)
  | int (n : Int)
  | bool (b : Bool)
  | null
  | arrStr (xs : List String)
deriving DecidableEq

/-- Go `map[string]interface{}`, modelled as an association list whose
    `insert` overwrites an existing key in place. -/
abbrev Fields := List (String × JValue)

/-- Map lookup (`m[k]` on a Go map). -/
def Fields.get : Fields → String → Option JValue
  | [], _ => none
  | (k', v) :: rest, k => if k' = k then some v else Fields.get rest k

/-- Map update (`m[k] = v` on a Go map): overwrite the key if present,
    otherwise add the pair. -/
def Fields.insert : Fields → String → JValue → Fields
  | [], k, v => [(k, v)]
  | (k', v') :: rest, k, v =>
    if k' = k then (k, v) :: rest else (k', v') :: Fields.insert rest k v

/-- The field-merge of `logger.log` and `logger.WithFields`: copy all
    pairs of `base`, then overlay all pairs of `extra` (extra wins). -/
def Fields.merge (base extra : Fields) : Fields :=
  extra.foldl (fun acc kv => Fields.insert acc kv.1 kv.2) base

def Fields.keys (m : Fields) : List String := m.map Prod.fst

/-- Well-formedness of the association-list model of a Go map: keys are
    pairwise distinct (true of every real Go map). -/
def Fields.WF (m : Fields) : Prop := (Fields.keys m).Nodup

instance (m : Fields) : Decidable (Fields.WF m) := by
  unfold Fields.WF; infer_instance

/-- A wall-clock instant (`time.Time`), reduced to the calendar
    components that the two formatting layouts of the source render. -/
structure Time where
  year : Nat
  month : Nat
  day : Nat
  hour : Nat
  minute : Nat
  second : Nat
  millis : Nat
  tzMinutes : Int
deriving DecidableEq

/-- A `context.Context` value: opaque to the engine (its json tag is
    `"-"` and no core method ever reads it). -/
structure Context where
deriving DecidableEq

/-- A Go `error` value, observed only through its `Error()` string. -/
abbrev Err := String

/-- One log event (the source's `Entry`). -/
structure Entry where
  level : Level
  timestamp : Time
  message : String
  fields : Fields
  error : Option Err
  ctx : Context
deriving DecidableEq

/- ## Decimal and hexadecimal digit rendering -/

def digitCh (d : Nat) : Char :=
  if d = 0 then '0' else if d = 1 then '1' else if d = 2 then '2'
  else if d = 3 then '3' else if d = 4 then '4' else if d = 5 then '5'
  else if d = 6 then '6' else if d = 7 then '7' else if d = 8 then '8'
  else '9'

def natCharsAux : Nat → Nat → List Char
  | 0, _ => []
  | fuel + 1, n => if n = 0 then [] else natCharsAux fuel (n / 10) ++ [digitCh (n % 10)]

/-- Decimal rendering of a natural number. -/
def natChars (n : Nat) : List Char := if n = 0 then ['0'] else natCharsAux n n

def natStr (n : Nat) : String := String.mk (natChars n)

/-- Decimal rendering of an integer (Go `%d` / JSON number rendering). -/
def intChars (n : Int) : List Char :=
  if n < 0 then '-' :: natChars n.natAbs else natChars n.natAbs

def pad2 (n : Nat) : List Char := if n < 10 then '0' :: natChars n else natChars n

def pad3 (n : Nat) : List Char :=
  if n < 10 then '0' :: '0' :: natChars n
  else if n < 100 then '0' :: natChars n
  else natChars n

def pad4 (n : Nat) : List Char :=
  if n < 10 then '0' :: '0' :: '0' :: natChars n
  else if n < 100 then '0' :: '0' :: natChars n
  else if n < 1000 then '0' :: natChars n
  else natChars n

/-- Time-zone suffix of Go's `Z07:00` layout element: `Z` for UTC,
    otherwise a signed `hh:mm` offset. -/
def zoneChars (o : Int) : List Char :=
  if o = 0 then ['Z']
  else if 0 < o then '+' :: pad2 (o.natAbs / 60) ++ ':' :: pad2 (o.natAbs % 60)
  else '-' :: pad2 (o.natAbs / 60) ++ ':' :: pad2 (o.natAbs % 60)

/-- `t.Format(time.RFC3339)`: layout `2006-01-02T15:04:05Z07:00`. -/
def rfc3339 (t : Time) : String :=
  String.mk (pad4 t.year ++ '-' :: pad2 t.month ++ '-' :: pad2 t.day ++
    'T' :: pad2 t.hour ++ ':' :: pad2 t.minute ++ ':' :: pad2 t.second ++
    zoneChars t.tzMinutes)

/-- The text formatter's timestamp layout `2006-01-02T15:04:05.000Z07:00`. -/
def textTimestamp (t : Time) : String :=
  String.mk (pad4 t.year ++ '-' :: pad2 t.month ++ '-' :: pad2 t.day ++
    'T' :: pad2 t.hour ++ ':' :: pad2 t.minute ++ ':' :: pad2 t.second ++
    '.' :: pad3 t.millis ++ zoneChars t.tzMinutes)

/- ## JSON serialization (the behaviour of `encoding/json.Marshal` on the
     values the formatter produces: sorted object keys, escaped strings) -/

def hexChar (d : Nat) : Char :=
  if d < 10 then digitCh d
  else if d = 10 then 'a' else if d = 11 then 'b' else if d = 12 then 'c'
  else if d = 13 then 'd' else if d = 14 then 'e' else 'f'

def hex4 (n : Nat) : List Char :=
  [hexChar (n / 4096 % 16), hexChar (n / 256 % 16), hexChar (n / 16 % 16), hexChar (n % 16)]

/-- JSON string escaping as performed by `encoding/json` (with its
    default HTML escaping of `<`, `>`, `&` and of U+2028/U+2029). -/
def escapeChar (c : Char) : List Char :=
  if c = '"' then ['\\', '"']
  else if c = '\\' then ['\\', '\\']
  else if c = '\n' then ['\\', 'n']
  else if c = '\r' then ['\\', 'r']
  else if c = '\t' then ['\\', 't']
  else if c.toNat < 32 ∨ c = '<' ∨ c = '>' ∨ c = '&' ∨ c.toNat = 8232 ∨ c.toNat = 8233 then
    '\\' :: 'u' :: hex4 c.toNat
  else [c]

def escChars (s : List Char) : List Char := (s.map escapeChar).flatten

def serializeStr (s : String) : List Char := '"' :: escChars s.data ++ ['"']

def renderArr : List String → List Char
  | [] => []
  | [x] => serializeStr x
  | x :: xs => serializeStr x ++ ',' :: renderArr xs

def serializeVal : JValue → List Char
  | .str s => serializeStr s
  | .int n => intChars n
  | .bool true => ['t', 'r', 'u', 'e']
  | .bool false => ['f', 'a', 'l', 's', 'e']
  | .null => ['n', 'u', 'l', 'l']
  | .arrStr xs => '[' :: renderArr xs ++ [']']

def memberChars (kv : String × JValue) : List Char :=
  serializeStr kv.1 ++ ':' :: serializeVal kv.2

def renderMembers : List (String × JValue) → List Char
  | [] => []
  | [kv] => memberChars kv
  | kv :: rest => memberChars kv ++ ',' :: renderMembers rest

/-- Byte-wise (equivalently code-point-wise) lexicographic order on
    strings, the order `encoding/json.Marshal` sorts map keys by. -/
def charListLe : List Char → List Char → Bool
  | [], _ => true
  | _ :: _, [] => false
  | a :: as, b :: bs =>
    if a.toNat < b.toNat then true
    else if b.toNat < a.toNat then false
    else charListLe as bs

def keyLe (a b : String × JValue) : Prop := charListLe a.1.data b.1.data = true

instance : DecidableRel keyLe := fun a b => by unfold keyLe; infer_instance

/-- `encoding/json.Marshal` emits map keys in sorted order. -/
def sortByKey (m : Fields) : Fields :=
  List.insertionSort keyLe m

def serializeObj (m : Fields) : List Char :=
  '{' :: renderMembers (sortByKey m) ++ ['}']

/- ## A JSON parser (used to state the round-trip properties) -/

def isDigit (c : Char) : Bool := 48 ≤ c.toNat && c.toNat ≤ 57

def digitVal (c : Char) : Nat := c.toNat - 48

def hexVal? (c : Char) : Option Nat :=
  if 48 ≤ c.toNat ∧ c.toNat ≤ 57 then some (c.toNat - 48)
  else if 97 ≤ c.toNat ∧ c.toNat ≤ 102 then some (c.toNat - 87)
  else if 65 ≤ c.toNat ∧ c.toNat ≤ 70 then some (c.toNat - 55)
  else none

def mapCons (c : Char) (o : Option (List Char × List Char)) : Option (List Char × List Char) :=
  o.map (fun p => (c :: p.1, p.2))

/-- Parse the remainder of a JSON string literal (after the opening
    quote), returning its unescaped characters and the rest of the input. -/
def parseStrRest : List Char → Option (List Char × List Char)
  | [] => none
  | c :: cs =>
    if c = '"' then some ([], cs)
    else if c = '\\' then
      match cs with
      | [] => none
      | e :: cs₂ =>
        if e = '"' then mapCons '"' (parseStrRest cs₂)
        else if e = '\\' then mapCons '\\' (parseStrRest cs₂)
        else if e = '/' then mapCons '/' (parseStrRest cs₂)
        else if e = 'n' then mapCons '\n' (parseStrRest cs₂)
        else if e = 'r' then mapCons '\r' (parseStrRest cs₂)
        else if e = 't' then mapCons '\t' (parseStrRest cs₂)
        else if e = 'b' then mapCons (Char.ofNat 8) (parseStrRest cs₂)
        else if e = 'f' then mapCons (Char.ofNat 12) (parseStrRest cs₂)
        else if e = 'u' then
          match cs₂ with
          | a :: b :: c2 :: d :: cs₃ =>
            match hexVal? a, hexVal? b, hexVal? c2, hexVal? d with
            | some h1, some h2, some h3, some h4 =>
              mapCons (Char.ofNat (4096 * h1 + 256 * h2 + 16 * h3 + h4)) (parseStrRest cs₃)
            | _, _, _, _ => none
          | _ => none
        else none
    else mapCons c (parseStrRest cs)

def parseNatAux : Nat → List Char → Nat × List Char
  | acc, [] => (acc, [])
  | acc, c :: cs => if isDigit c then parseNatAux (10 * acc + digitVal c) cs else (acc, c :: cs)

def digitHead : List Char → Bool
  | [] => false
  | c :: _ => isDigit c

def parseArrItems : Nat → List Char → Option (List String × List Char)
  | fuel, cs =>
    match cs with
    | [] => none
    | c :: cs' =>
      if c = '"' then
        match parseStrRest cs' with
        | some (s, r) =>
          match r with
          | ',' :: r2 =>
            match fuel with
            | 0 => none
            | fuel' + 1 => (parseArrItems fuel' r2).map (fun p => (String.mk s :: p.1, p.2))
          | ']' :: r2 => some ([String.mk s], r2)
          | _ => none
        | none => none
      else none

def parseVal (input : List Char) : Option (JValue × List Char) :=
  match input with
  | [] => none
  | c :: cs =>
    if c = '"' then (parseStrRest cs).map (fun p => (JValue.str (String.mk p.1), p.2))
    else if c = '[' then
      match cs with
      | ']' :: r => some (.arrStr [], r)
      | _ => (parseArrItems cs.length cs).map (fun p => (JValue.arrStr p.1, p.2))
    else if c = 't' then
      match cs with
      | 'r' :: 'u' :: 'e' :: r => some (.bool true, r)
      | _ => none
    else if c = 'f' then
      match cs with
      | 'a' :: 'l' :: 's' :: 'e' :: r => some (.bool false, r)
      | _ => none
    else if c = 'n' then
      match cs with
      | 'u' :: 'l' :: 'l' :: r => some (.null, r)
      | _ => none
    else if c = '-' then
      match cs with
      | [] => none
      | c2 :: _ =>
        if isDigit c2 then
          some (.int (-((parseNatAux 0 cs).1 : Int)), (parseNatAux 0 cs).2)
        else none
    else if isDigit c then
      some (.int ((parseNatAux 0 (c :: cs)).1 : Int), (parseNatAux 0 (c :: cs)).2)
    else none

def parseMembers : Nat → List Char → Option (Fields × List Char)
  | fuel, cs =>
    match cs with
    | [] => none
    | c :: cs' =>
      if c = '"' then
        match parseStrRest cs' with
        | some (k, r) =>
          match r with
          | ':' :: r' =>
            match parseVal r' with
            | some (v, r2) =>
              match r2 with
              | ',' :: r3 =>
                match fuel with
                | 0 => none
                | fuel' + 1 =>
                  (parseMembers fuel' r3).map (fun p => ((String.mk k, v) :: p.1, p.2))
              | '}' :: r3 => some ([(String.mk k, v)], r3)
              | _ => none
            | none => none
          | _ => none
        | none => none
      else none

/-- Parse a whole one-object JSON document, requiring full consumption
    of the input. -/
def jsonParse (cs : List Char) : Option Fields :=
  match cs with
  | '{' :: rest =>
    if rest = ['}'] then some []
    else
      match parseMembers rest.length rest with
      | some (m, []) => some m
      | _ => none
  | _ => none

/- ## Formatters (`pkg/logger/formatters.go`) -/

/-- What `runtime.Caller(3)` reports when it succeeds: the call site's
    base file name, line, and enclosing function. -/
structure CallerInfo where
  file : String
  line : Nat
  fn : String
deriving DecidableEq

/-- Runtime introspection available to a formatter: the originating
    call site (if resolvable) and the pre-rendered `file:line func`
    stack frames. These are environment inputs of the model. -/
structure RuntimeInfo where
  caller : Option CallerInfo
  stack : List String
deriving DecidableEq

def callerShort (ci : CallerInfo) : String := ci.file ++ ":" ++ natStr ci.line

structure JSONFormatter where
  addCaller : Bool
  addStack : Bool
deriving DecidableEq

structure TextFormatter where
  addCaller : Bool
  addStack : Bool
deriving DecidableEq

/-- The `data` map built by `JSONFormatter.Format`: level, timestamp and
    message first, then all entry fields overlaid, then the optional
    error, caller and stack attributes. -/
def jsonData (f : JSONFormatter) (rt : RuntimeInfo) (e : Entry) : Fields :=
  let data : Fields :=
    [("level", .str (levelString e.level)),
     ("timestamp", .str (rfc3339 e.timestamp)),
     ("message", .str e.message)]
  let data := if e.fields.length > 0 then Fields.merge data e.fields else data
  let data :=
    match e.error with
    | some er => Fields.insert data "error" (.str er)
    | none => data
  let data :=
    if f.addCaller then
      match rt.caller with
      | some ci =>
        Fields.insert (Fields.insert data "caller" (.str (callerShort ci))) "function" (.str ci.fn)
      | none => data
    else data
  if f.addStack then
    match e.error with
    | some _ => if rt.stack.length > 0 then Fields.insert data "stack" (.arrStr rt.stack) else data
    | none => data
  else data

abbrev Formatter := Entry → Except Err (List Char)

/-- `JSONFormatter.Format`: marshal the data map. On this value
    universe `json.Marshal` always succeeds. -/
def JSONFormatter.format (f : JSONFormatter) (rt : RuntimeInfo) : Formatter :=
  fun e => .ok (serializeObj (jsonData f rt e))

def valueText : JValue → String
  | .str s => s
  | .int n => String.mk (intChars n)
  | .bool true => "true"
  | .bool false => "false"
  | .null => "<nil>"
  | .arrStr xs => "[" ++ String.intercalate " " xs ++ "]"

def fieldTexts : Fields → List String
  | [] => []
  | (k, v) :: rest => (k ++ "=" ++ valueText v) :: fieldTexts rest

def upperChar (c : Char) : Char :=
  if 97 ≤ c.toNat ∧ c.toNat ≤ 122 then Char.ofNat (c.toNat - 32) else c

def asciiUpper (s : String) : String := String.mk (s.data.map upperChar)

/-- The text line built by `TextFormatter.Format`: space-joined parts,
    newline-terminated. -/
def textRender (f : TextFormatter) (rt : RuntimeInfo) (e : Entry) : List Char :=
  let parts : List String :=
    [textTimestamp e.timestamp, "[" ++ asciiUpper (levelString e.level) ++ "]"]
  let parts :=
    if f.addCaller then
      match rt.caller with
      | some ci => parts ++ ["(" ++ callerShort ci ++ " " ++ ci.fn ++ ")"]
      | none => parts
    else parts
  let parts := parts ++ [e.message]
  let parts :=
    if e.fields.length > 0 then
      parts ++ ["\x7b" ++ String.intercalate " " (fieldTexts e.fields) ++ "\x7d"]
    else parts
  let parts :=
    match e.error with
    | some er => parts ++ ["error=" ++ er]
    | none => parts
  let parts :=
    if f.addStack then
      match e.error with
      | some _ =>
        if rt.stack.length > 0 then parts ++ ["\nStack trace:"] ++ rt.stack.map (fun fr => "  " ++ fr)
        else parts
      | none => parts
    else parts
  (String.intercalate " " parts ++ "\n").data

/-- `TextFormatter.Format` returns its bytes with a nil error. -/
def TextFormatter.format (f : TextFormatter) (rt : RuntimeInfo) : Formatter :=
  fun e => .ok (textRender f rt e)

/- ## Handlers (`internal/logger/config.go`) -/

/-- A sink: the two console streams and the rotating log file. -/
inductive Target where
  | stdout
  | stderr
  | file
deriving DecidableEq

/-- The observable outcome of one `Handle` call: the byte writes it made
    (in order, tagged with their sink) and its returned error. -/
structure HandleResult where
  writes : List (Target × List Char)
  err : Option Err
deriving DecidableEq

abbrev Handler := Entry → HandleResult

/-- `ConsoleHandler.Handle`: format, abort returning the error on
    formatter failure, otherwise write the bytes to the bound stream. -/
def ConsoleHandler.handle (t : Target) (f : Formatter) : Handler := fun e =>
  match f e with
  | .error er => ⟨[], some er⟩
  | .ok data => ⟨[(t, data)], none⟩

/-- `NewConsoleHandler`: binds stdout or stderr, rejecting any other
    output name. -/
def NewConsoleHandler (output : String) (f : Formatter) : Except Err Handler :=
  if output = "stdout" then .ok (ConsoleHandler.handle .stdout f)
  else if output = "stderr" then .ok (ConsoleHandler.handle .stderr f)
  else .error ("unsupported console output: " ++ output)

/-- `FileHandler.Handle`: same discipline as the console handler, sink
    being the rotating file writer. -/
def FileHandler.handle (f : Formatter) : Handler := fun e =>
  match f e with
  | .error er => ⟨[], some er⟩
  | .ok data => ⟨[(Target.file, data)], none⟩

/-- Logging configuration (`internal/logger.Config`). Rotation settings
    are carried but rotation itself happens inside the third-party
    writer and is not observable at this interface. -/
structure Config where
  level : Level
  format : String
  output : String
  filePath : String
  maxSize : Nat
  maxBackups : Nat
  maxAge : Nat
  compress : Bool
  addCaller : Bool
  addStack : Bool
deriving DecidableEq

/-- `NewFileHandler` constructs the lumberjack-backed handler and never
    fails. -/
def NewFileHandler (_c : Config) (f : Formatter) : Except Err Handler :=
  .ok (FileHandler.handle f)

/-- `MultiHandler.Handle`: call every member in order, keeping the last
    non-nil error. -/
def MultiHandler.handle (hs : List Handler) : Handler := fun e =>
  let r := hs.foldl
    (fun (acc : List (Target × List Char) × Option Err) h =>
      let hr := h e
      (acc.1 ++ hr.writes, match hr.err with | some er => some er | none => acc.2))
    ([], none)
  ⟨r.1, r.2⟩

def DefaultConfig : Config :=
  ⟨InfoLevel, "json", "stdout", "logs/app.log", 100, 3, 28, true, true, false⟩

/-- `Config.Validate`: normalize unrecognized level/format/output to the
    defaults, then (for file output) create the log directory; the
    directory creation is the only failure point and its success is an
    environment input (`mkdirFails`). -/
def Config.validate (c : Config) (mkdirFails : Bool) : Except Err Config :=
  let c1 := if c.level < DebugLevel ∨ FatalLevel < c.level then { c with level := InfoLevel } else c
  let c2 := if c1.format ≠ "json" ∧ c1.format ≠ "text" then { c1 with format := "json" } else c1
  let c3 :=
    if c2.output ≠ "stdout" ∧ c2.output ≠ "stderr" ∧ c2.output ≠ "file" then
      { c2 with output := "stdout" }
    else c2
  if c3.output = "file" ∧ mkdirFails = true then .error "failed to create log directory" else .ok c3

/-- The logger value (`logger` struct): validated config, handler, and
    accumulated base fields. The mutex only guards the (here
    value-semantic) fields map. -/
structure LoggerS where
  config : Config
  handler : Handler
  fields : Fields

/-- `NewLogger`: validate, build the formatter (default JSON), build the
    handler (default stdout console), start with empty base fields. -/
def NewLogger (c : Config) (mkdirFails : Bool) (rt : RuntimeInfo) : Except Err LoggerS :=
  match Config.validate c mkdirFails with
  | .error e => .error e
  | .ok c' =>
    let fmt : Formatter :=
      if c'.format = "json" then JSONFormatter.format ⟨c'.addCaller, c'.addStack⟩ rt
      else if c'.format = "text" then TextFormatter.format ⟨c'.addCaller, c'.addStack⟩ rt
      else JSONFormatter.format ⟨c'.addCaller, c'.addStack⟩ rt
    let hres : Except Err Handler :=
      if c'.output = "stdout" ∨ c'.output = "stderr" then NewConsoleHandler c'.output fmt
      else if c'.output = "file" then NewFileHandler c' fmt
      else NewConsoleHandler "stdout" fmt
    match hres with
    | .error e => .error e
    | .ok h => .ok ⟨c', h, []⟩

/-- The observable outcome of one logger write call: all byte writes
    performed (through the handler or the stderr fallback), the entries
    passed to the configured handler, and the process exit code if the
    call terminated the process. -/
structure LogResult where
  writes : List (Target × List Char)
  handlerCalls : List Entry
  exitCode : Option Nat
deriving DecidableEq

/-- The fallback formatter built by `logger.log` on handler failure:
    `&TextFormatter{}` (both flags false, no runtime introspection). -/
def fallbackFormatter : Formatter := TextFormatter.format ⟨false, false⟩ ⟨none, []⟩

/-- `logger.log`: the write path. Below threshold: return immediately.
    Otherwise merge fields, build the entry (`ts` is the `time.Now()`
    read), call the handler; on handler error, write one diagnostic line
    through a fresh stderr console handler with a plain text formatter
    (`tsFB` is the fallback's own `time.Now()` read). -/
def LoggerS.log (l : LoggerS) (ctx : Context) (level : Level) (msg : String)
    (err : Option Err) (fields : Fields) (ts tsFB : Time) : LogResult :=
  if level < l.config.level then ⟨[], [], none⟩
  else
    let baseFields := Fields.merge l.fields fields
    let entry : Entry := ⟨level, ts, msg, baseFields, err, ctx⟩
    let r := l.handler entry
    match r.err with
    | none => ⟨r.writes, [entry], none⟩
    | some er =>
      let fb := ConsoleHandler.handle .stderr fallbackFormatter
      let fbEntry : Entry := ⟨ErrorLevel, tsFB, "Failed to write log entry", [], some er, ⟨⟩⟩
      ⟨r.writes ++ (fb fbEntry).writes, [entry], none⟩

def LoggerS.Debug (l : LoggerS) (ctx : Context) (msg : String) (fields : Fields)
    (ts tsFB : Time) : LogResult :=
  l.log ctx DebugLevel msg none fields ts tsFB

def LoggerS.Info (l : LoggerS) (ctx : Context) (msg : String) (fields : Fields)
    (ts tsFB : Time) : LogResult :=
  l.log ctx InfoLevel msg none fields ts tsFB

def LoggerS.Warn (l : LoggerS) (ctx : Context) (msg : String) (fields : Fields)
    (ts tsFB : Time) : LogResult :=
  l.log ctx WarnLevel msg none fields ts tsFB

def LoggerS.Error (l : LoggerS) (ctx : Context) (msg : String) (err : Option Err)
    (fields : Fields) (ts tsFB : Time) : LogResult :=
  l.log ctx ErrorLevel msg err fields ts tsFB

/-- `logger.Fatal`: run the write path, then `os.Exit(1)`. -/
def LoggerS.Fatal (l : LoggerS) (ctx : Context) (msg : String) (err : Option Err)
    (fields : Fields) (ts tsFB : Time) : LogResult :=
  let r := l.log ctx FatalLevel msg err fields ts tsFB
  { r with exitCode := some 1 }

/-- `logger.WithContext`: a new logger sharing config, handler and
    fields; the context itself is not retained. -/
def LoggerS.withContext (l : LoggerS) (_ctx : Context) : LoggerS :=
  ⟨l.config, l.handler, l.fields⟩

/-- `logger.WithFields`: a new logger whose base fields are the merge of
    the receiver's base fields with `fields`; the receiver is unchanged. -/
def LoggerS.withFields (l : LoggerS) (fields : Fields) : LoggerS :=
  ⟨l.config, l.handler, Fields.merge l.fields fields⟩

/- ## Association-list (Go map) lemmas -/

theorem get_insert (m : Fields) (k : String) (v : JValue) (k' : String) :
    Fields.get (Fields.insert m k v) k' = if k = k' then some v else Fields.get m k' := by
  induction m with
  | nil => simp [Fields.insert, Fields.get]
  | cons kv rest ih =>
    obtain ⟨k0, v0⟩ := kv
    by_cases h0 : k0 = k
    · subst h0
      by_cases h1 : k0 = k'
      · subst h1; simp [Fields.insert, Fields.get]
      · simp [Fields.insert, Fields.get, h1]
    · by_cases h1 : k0 = k'
      · subst h1
        have hkk : ¬ k = k0 := fun h => h0 h.symm
        simp [Fields.insert, Fields.get, h0, hkk]
      · simp [Fields.insert, Fields.get, h0, h1, ih]

theorem mem_keys_insert (m : Fields) (k : String) (v : JValue) (a : String) :
    a ∈ Fields.keys (Fields.insert m k v) ↔ a ∈ Fields.keys m ∨ a = k := by
  induction m with
  | nil => simp [Fields.insert, Fields.keys]
  | cons kv rest ih =>
    obtain ⟨k0, v0⟩ := kv
    by_cases h0 : k0 = k
    · subst h0; simp [Fields.insert, Fields.keys]; tauto
    · simp [Fields.insert, Fields.keys, h0] at ih ⊢
      tauto

theorem keys_cons (k0 : String) (v0 : JValue) (rest : Fields) :
    Fields.keys ((k0, v0) :: rest) = k0 :: Fields.keys rest := rfl

theorem WF_cons_iff (k0 : String) (v0 : JValue) (rest : Fields) :
    Fields.WF ((k0, v0) :: rest) ↔ k0 ∉ Fields.keys rest ∧ Fields.WF rest := by
  unfold Fields.WF
  rw [keys_cons, List.nodup_cons]

theorem WF_insert (m : Fields) (k : String) (v : JValue) (h : Fields.WF m) :
    Fields.WF (Fields.insert m k v) := by
  induction m with
  | nil => simp [Fields.WF, Fields.insert, Fields.keys]
  | cons kv rest ih =>
    obtain ⟨k0, v0⟩ := kv
    rw [WF_cons_iff] at h
    by_cases h0 : k0 = k
    · subst h0
      have hins : Fields.insert ((k0, v0) :: rest) k0 v = (k0, v) :: rest := by
        simp [Fields.insert]
      rw [hins, WF_cons_iff]
      exact h
    · have hins : Fields.insert ((k0, v0) :: rest) k v = (k0, v0) :: Fields.insert rest k v := by
        simp [Fields.insert, h0]
      rw [hins, WF_cons_iff]
      refine ⟨fun hmem => ?_, ih h.2⟩
      rcases (mem_keys_insert rest k v k0).1 hmem with hin | heq
      · exact h.1 hin
      · exact h0 heq

theorem get_eq_none_iff (m : Fields) (k : String) :
    Fields.get m k = none ↔ k ∉ Fields.keys m := by
  induction m with
  | nil => simp [Fields.get, Fields.keys]
  | cons kv rest ih =>
    obtain ⟨k0, v0⟩ := kv
    by_cases h0 : k0 = k
    · subst h0; simp [Fields.get, Fields.keys]
    · simp [Fields.get, Fields.keys, h0, ih]
      tauto

theorem mem_keys_of_get_some (m : Fields) (k : String) (v : JValue)
    (h : Fields.get m k = some v) : k ∈ Fields.keys m := by
  by_contra hmem
  rw [(get_eq_none_iff m k).2 hmem] at h
  exact Option.noConfusion h

theorem merge_cons (b : Fields) (k0 : String) (v0 : JValue) (rest : Fields) :
    Fields.merge b ((k0, v0) :: rest) = Fields.merge (Fields.insert b k0 v0) rest := rfl

theorem get_merge (b extra : Fields) (h : Fields.WF extra) (k : String) :
    Fields.get (Fields.merge b extra) k = (Fields.get extra k).or (Fields.get b k) := by
  induction extra generalizing b with
  | nil => simp [Fields.merge, Fields.get, Option.or]
  | cons kv rest ih =>
    obtain ⟨k0, v0⟩ := kv
    rw [WF_cons_iff] at h
    rw [merge_cons, ih (Fields.insert b k0 v0) h.2]
    by_cases h0 : k0 = k
    · subst h0
      have hnone : Fields.get rest k0 = none := (get_eq_none_iff rest k0).2 h.1
      simp [Fields.get, hnone, get_insert, Option.or]
    · simp [Fields.get, h0, get_insert]

theorem WF_merge (b extra : Fields) (h : Fields.WF b) : Fields.WF (Fields.merge b extra) := by
  induction extra generalizing b with
  | nil => exact h
  | cons kv rest ih =>
    obtain ⟨k0, v0⟩ := kv
    rw [merge_cons]
    exact ih _ (WF_insert b k0 v0 h)

theorem WF_perm {m m' : Fields} (p : List.Perm m m') (h : Fields.WF m) : Fields.WF m' :=
  ((p.map Prod.fst).nodup_iff).1 h

theorem get_perm {m m' : Fields} (p : List.Perm m m') (h : Fields.WF m) (k : String) :
    Fields.get m k = Fields.get m' k := by
  induction p with
  | nil => rfl
  | cons kv p ih =>
    obtain ⟨k0, v0⟩ := kv
    rw [WF_cons_iff] at h
    by_cases h0 : k0 = k
    · simp [Fields.get, h0]
    · simp [Fields.get, h0, ih h.2]
  | swap x y l =>
    obtain ⟨kx, vx⟩ := x
    obtain ⟨ky, vy⟩ := y
    rw [WF_cons_iff, WF_cons_iff, keys_cons] at h
    have hxy : ¬ ky = kx := fun heq => h.1 (heq ▸ List.mem_cons_self kx (Fields.keys l))
    by_cases hx : kx = k
    · subst hx
      simp [Fields.get, hxy]
    · by_cases hy : ky = k
      · subst hy
        simp [Fields.get, fun hh : kx = ky => hx hh]
      · simp [Fields.get, hx, hy]
  | trans p1 p2 ih1 ih2 =>
    exact (ih1 h).trans (ih2 (WF_perm p1 h))

theorem WF_sortByKey (m : Fields) (h : Fields.WF m) : Fields.WF (sortByKey m) :=
  WF_perm (List.perm_insertionSort keyLe m).symm h

theorem get_sortByKey (m : Fields) (h : Fields.WF m) (k : String) :
    Fields.get (sortByKey m) k = Fields.get m k :=
  get_perm (List.perm_insertionSort keyLe m) (WF_sortByKey m h) k

/- ## Digit and hexadecimal rendering lemmas -/

theorem hexVal_hexChar (d : Nat) (h : d < 16) : hexVal? (hexChar d) = some d := by
  have hall : ∀ x : Fin 16, hexVal? (hexChar x.val) = some x.val := by decide
  exact hall ⟨d, h⟩

theorem isDigit_digitCh (d : Nat) (h : d < 10) : isDigit (digitCh d) = true := by
  have hall : ∀ x : Fin 10, isDigit (digitCh x.val) = true := by decide
  exact hall ⟨d, h⟩

theorem digitVal_digitCh (d : Nat) (h : d < 10) : digitVal (digitCh d) = d := by
  have hall : ∀ x : Fin 10, digitVal (digitCh x.val) = x.val := by decide
  exact hall ⟨d, h⟩

theorem natCharsAux_digits (fuel : Nat) : ∀ n, n ≤ fuel →
    ∀ c ∈ natCharsAux fuel n, isDigit c = true := by
  induction fuel with
  | zero => intro n _ c hc; simp [natCharsAux] at hc
  | succ f ih =>
    intro n hn c hc
    by_cases h0 : n = 0
    · simp [natCharsAux, h0] at hc
    · simp only [natCharsAux, if_neg h0] at hc
      rcases List.mem_append.1 hc with hc | hc
      · have hdiv : n / 10 ≤ f := by
          have := Nat.div_lt_self (Nat.pos_of_ne_zero h0) (by norm_num : 1 < 10)
          omega
        exact ih (n / 10) hdiv c hc
      · have : c = digitCh (n % 10) := by simpa using hc
        subst this
        exact isDigit_digitCh _ (Nat.mod_lt _ (by norm_num))

theorem natCharsAux_foldl (fuel : Nat) : ∀ n acc, n ≤ fuel →
    (natCharsAux fuel n).foldl (fun a c => 10 * a + digitVal c) acc =
      acc * 10 ^ (natCharsAux fuel n).length + n := by
  induction fuel with
  | zero =>
    intro n acc hn
    have h0 : n = 0 := by omega
    subst h0
    simp [natCharsAux]
  | succ f ih =>
    intro n acc hn
    by_cases h0 : n = 0
    · simp [natCharsAux, h0]
    · have hdiv : n / 10 ≤ f := by
        have := Nat.div_lt_self (Nat.pos_of_ne_zero h0) (by norm_num : 1 < 10)
        omega
      simp only [natCharsAux, if_neg h0]
      rw [List.foldl_append]
      simp only [List.foldl_cons, List.foldl_nil]
      rw [digitVal_digitCh _ (Nat.mod_lt _ (by norm_num)), ih (n / 10) acc hdiv]
      have hlen : (natCharsAux f (n / 10) ++ [digitCh (n % 10)]).length =
          (natCharsAux f (n / 10)).length + 1 := by simp
      rw [hlen, pow_succ]
      have hmul : acc * (10 ^ (natCharsAux f (n / 10)).length * 10) =
          10 * (acc * 10 ^ (natCharsAux f (n / 10)).length) := by ring
      rw [hmul]
      generalize acc * 10 ^ (natCharsAux f (n / 10)).length = q
      omega

theorem natCharsAux_ne_nil (fuel n : Nat) (h1 : n ≤ fuel) (h2 : 0 < n) :
    natCharsAux fuel n ≠ [] := by
  cases fuel with
  | zero => omega
  | succ f =>
    simp only [natCharsAux, if_neg (by omega : ¬ n = 0)]
    simp

theorem natChars_digits (n : Nat) : ∀ c ∈ natChars n, isDigit c = true := by
  intro c hc
  by_cases h0 : n = 0
  · subst h0; simp [natChars] at hc; subst hc; decide
  · simp only [natChars, if_neg h0] at hc
    exact natCharsAux_digits n n le_rfl c hc

theorem natChars_ne_nil (n : Nat) : natChars n ≠ [] := by
  by_cases h0 : n = 0
  · simp [natChars, h0]
  · simp only [natChars, if_neg h0]
    exact natCharsAux_ne_nil n n le_rfl (Nat.pos_of_ne_zero h0)

theorem natChars_foldl (n : Nat) :
    (natChars n).foldl (fun a c => 10 * a + digitVal c) 0 = n := by
  by_cases h0 : n = 0
  · subst h0; decide
  · simp only [natChars, if_neg h0]
    rw [natCharsAux_foldl n n 0 le_rfl]
    simp

/- ## Number parsing lemmas -/

theorem parseNatAux_append (ds : List Char) : ∀ acc rest,
    (∀ c ∈ ds, isDigit c = true) → digitHead rest = false →
    parseNatAux acc (ds ++ rest) = (ds.foldl (fun a c => 10 * a + digitVal c) acc, rest) := by
  induction ds with
  | nil =>
    intro acc rest _ hrest
    cases rest with
    | nil => simp [parseNatAux]
    | cons c t =>
      have : isDigit c = false := by simpa [digitHead] using hrest
      simp [parseNatAux, this]
  | cons c t ih =>
    intro acc rest hds hrest
    have hc : isDigit c = true := hds c (List.mem_cons_self c t)
    simp only [List.cons_append, parseNatAux, hc, if_true, List.foldl_cons]
    exact ih _ rest (fun x hx => hds x (List.mem_cons_of_mem c hx)) hrest

theorem parseNatAux_natChars (n : Nat) (rest : List Char) (hrest : digitHead rest = false) :
    parseNatAux 0 (natChars n ++ rest) = (n, rest) := by
  rw [parseNatAux_append (natChars n) 0 rest (natChars_digits n) hrest, natChars_foldl]

theorem natChars_head_digit (n : Nat) :
    ∃ d t, natChars n = d :: t ∧ isDigit d = true := by
  cases hn : natChars n with
  | nil => exact absurd hn (natChars_ne_nil n)
  | cons d t =>
    exact ⟨d, t, rfl, natChars_digits n d (by rw [hn]; exact List.mem_cons_self d t)⟩

/- ## String-literal parsing lemmas -/

theorem mapCons_some (c : Char) (s r : List Char) :
    mapCons c (some (s, r)) = some (c :: s, r) := rfl

theorem psr_quote (t : List Char) : parseStrRest ('"' :: t) = some ([], t) := by
  rw [parseStrRest.eq_def]; simp

theorem psr_esc_quote (t : List Char) :
    parseStrRest ('\\' :: '"' :: t) = mapCons '"' (parseStrRest t) := by
  rw [parseStrRest.eq_def]; simp

theorem psr_esc_backslash (t : List Char) :
    parseStrRest ('\\' :: '\\' :: t) = mapCons '\\' (parseStrRest t) := by
  rw [parseStrRest.eq_def]; simp

theorem psr_esc_n (t : List Char) :
    parseStrRest ('\\' :: 'n' :: t) = mapCons '\n' (parseStrRest t) := by
  rw [parseStrRest.eq_def]; simp

theorem psr_esc_r (t : List Char) :
    parseStrRest ('\\' :: 'r' :: t) = mapCons '\r' (parseStrRest t) := by
  rw [parseStrRest.eq_def]; simp

theorem psr_esc_t (t : List Char) :
    parseStrRest ('\\' :: 't' :: t) = mapCons '\t' (parseStrRest t) := by
  rw [parseStrRest.eq_def]; simp

theorem psr_esc_u {a b c2 d : Char} {t : List Char} {h1 h2 h3 h4 : Nat}
    (e1 : hexVal? a = some h1) (e2 : hexVal? b = some h2) (e3 : hexVal? c2 = some h3)
    (e4 : hexVal? d = some h4) :
    parseStrRest ('\\' :: 'u' :: a :: b :: c2 :: d :: t) =
      mapCons (Char.ofNat (4096 * h1 + 256 * h2 + 16 * h3 + h4)) (parseStrRest t) := by
  rw [parseStrRest.eq_def]; simp [e1, e2, e3, e4]

theorem psr_lit (c : Char) (t : List Char) (h1 : ¬ c = '"') (h2 : ¬ c = '\\') :
    parseStrRest (c :: t) = mapCons c (parseStrRest t) := by
  rw [parseStrRest.eq_def]; simp [h1, h2]

theorem parseStrRest_esc (s : List Char) : ∀ rest,
    parseStrRest (escChars s ++ '"' :: rest) = some (s, rest) := by
  induction s with
  | nil =>
    intro rest
    show parseStrRest ('"' :: rest) = some ([], rest)
    exact psr_quote rest
  | cons c cs ih =>
    intro rest
    have hesc : escChars (c :: cs) ++ '"' :: rest =
        escapeChar c ++ (escChars cs ++ '"' :: rest) := by
      simp [escChars]
    rw [hesc]
    by_cases h1 : c = '"'
    · subst h1
      rw [show escapeChar '"' = ['\\', '"'] from by decide]
      simp only [List.cons_append, List.nil_append]
      rw [psr_esc_quote, ih rest, mapCons_some]
    · by_cases h2 : c = '\\'
      · subst h2
        rw [show escapeChar '\\' = ['\\', '\\'] from by decide]
        simp only [List.cons_append, List.nil_append]
        rw [psr_esc_backslash, ih rest, mapCons_some]
      · by_cases h3 : c = '\n'
        · subst h3
          rw [show escapeChar '\n' = ['\\', 'n'] from by decide]
          simp only [List.cons_append, List.nil_append]
          rw [psr_esc_n, ih rest, mapCons_some]
        · by_cases h4 : c = '\r'
          · subst h4
            rw [show escapeChar '\r' = ['\\', 'r'] from by decide]
            simp only [List.cons_append, List.nil_append]
            rw [psr_esc_r, ih rest, mapCons_some]
          · by_cases h5 : c = '\t'
            · subst h5
              rw [show escapeChar '\t' = ['\\', 't'] from by decide]
              simp only [List.cons_append, List.nil_append]
              rw [psr_esc_t, ih rest, mapCons_some]
            · by_cases h6 : c.toNat < 32 ∨ c = '<' ∨ c = '>' ∨ c = '&' ∨
                  c.toNat = 8232 ∨ c.toNat = 8233
              · have hb : c.toNat < 65536 := by
                  rcases h6 with h | h | h | h | h | h
                  · omega
                  · subst h; decide
                  · subst h; decide
                  · subst h; decide
                  · omega
                  · omega
                have hech : escapeChar c = '\\' :: 'u' :: hex4 c.toNat := by
                  simp [escapeChar, h1, h2, h3, h4, h5, h6]
                rw [hech]
                simp only [hex4, List.cons_append, List.nil_append]
                rw [psr_esc_u (hexVal_hexChar _ (Nat.mod_lt _ (by norm_num)))
                      (hexVal_hexChar _ (Nat.mod_lt _ (by norm_num)))
                      (hexVal_hexChar _ (Nat.mod_lt _ (by norm_num)))
                      (hexVal_hexChar _ (Nat.mod_lt _ (by norm_num)))]
                rw [show 4096 * (c.toNat / 4096 % 16) + 256 * (c.toNat / 256 % 16) +
                      16 * (c.toNat / 16 % 16) + c.toNat % 16 = c.toNat from by omega]
                rw [Char.ofNat_toNat, ih rest, mapCons_some]
              · have hech : escapeChar c = [c] := by
                  simp [escapeChar, h1, h2, h3, h4, h5, h6]
                rw [hech]
                simp only [List.cons_append, List.nil_append]
                rw [psr_lit c _ h1 h2, ih rest, mapCons_some]

/- ## Value parsing lemmas -/

theorem serializeStr_shape (s : String) (rest : List Char) :
    serializeStr s ++ rest = '"' :: (escChars s.data ++ '"' :: rest) := by
  simp [serializeStr]

theorem parseVal_str (s : String) (rest : List Char) :
    parseVal (serializeStr s ++ rest) = some (.str s, rest) := by
  rw [serializeStr_shape]
  simp [parseVal, parseStrRest_esc]

theorem digit_not_special (c : Char) (h : isDigit c = true) :
    ¬ c = '"' ∧ ¬ c = '[' ∧ ¬ c = 't' ∧ ¬ c = 'f' ∧ ¬ c = 'n' ∧ ¬ c = '-' := by
  refine ⟨?_, ?_, ?_, ?_, ?_, ?_⟩ <;> (intro he; subst he; revert h; decide)

theorem parseVal_int (n : Int) (rest : List Char) (hrest : digitHead rest = false) :
    parseVal (serializeVal (.int n) ++ rest) = some (.int n, rest) := by
  by_cases hneg : n < 0
  · simp only [serializeVal, intChars, if_pos hneg, List.cons_append]
    obtain ⟨d, t, hd, hdig⟩ := natChars_head_digit n.natAbs
    rw [hd, List.cons_append]
    have hps : parseNatAux 0 (d :: (t ++ rest)) = (n.natAbs, rest) := by
      rw [← List.cons_append, ← hd]
      exact parseNatAux_natChars _ _ hrest
    have habs : -(|n|) = n := by rw [abs_of_neg hneg]; ring
    simp only [parseVal]
    simp [hdig, hps, habs]
  · simp only [serializeVal, intChars, if_neg hneg]
    obtain ⟨d, t, hd, hdig⟩ := natChars_head_digit n.natAbs
    rw [hd, List.cons_append]
    obtain ⟨n1, n2, n3, n4, n5, n6⟩ := digit_not_special d hdig
    have hps : parseNatAux 0 (d :: (t ++ rest)) = (n.natAbs, rest) := by
      rw [← List.cons_append, ← hd]
      exact parseNatAux_natChars _ _ hrest
    have habs : (|n|) = n := abs_of_nonneg (not_lt.mp hneg)
    simp only [parseVal]
    simp [n1, n2, n3, n4, n5, n6, hdig, hps, habs]

theorem parseVal_bool_true (rest : List Char) :
    parseVal (serializeVal (.bool true) ++ rest) = some (.bool true, rest) := by
  simp [serializeVal, parseVal]

theorem parseVal_bool_false (rest : List Char) :
    parseVal (serializeVal (.bool false) ++ rest) = some (.bool false, rest) := by
  simp [serializeVal, parseVal]

theorem parseVal_null (rest : List Char) :
    parseVal (serializeVal .null ++ rest) = some (.null, rest) := by
  simp [serializeVal, parseVal]

theorem serializeStr_len (s : String) : 2 ≤ (serializeStr s).length := by
  simp [serializeStr]

theorem renderArr_head (x : String) (xs : List String) :
    ∃ t, renderArr (x :: xs) = '"' :: t := by
  cases xs with
  | nil => exact ⟨escChars x.data ++ ['"'], by simp [renderArr, serializeStr]⟩
  | cons y u =>
    exact ⟨escChars x.data ++ ['"'] ++ ',' :: renderArr (y :: u),
      by simp [renderArr, serializeStr]⟩

theorem renderArr_len (xs : List String) : xs.length ≤ (renderArr xs).length := by
  induction xs with
  | nil => simp [renderArr]
  | cons x t ih =>
    cases t with
    | nil => have := serializeStr_len x; simp [renderArr]; omega
    | cons y u =>
      have := serializeStr_len x
      simp only [renderArr, List.length_append, List.length_cons] at ih ⊢
      omega

theorem parseArrItems_render (xs : List String) : ∀ fuel rest, xs ≠ [] →
    xs.length ≤ fuel + 1 →
    parseArrItems fuel (renderArr xs ++ ']' :: rest) = some (xs, rest) := by
  induction xs with
  | nil => intro fuel rest h _; exact absurd rfl h
  | cons x t ih =>
    intro fuel rest _ hlen
    cases t with
    | nil =>
      rw [show renderArr [x] = serializeStr x from rfl, serializeStr_shape]
      simp [parseArrItems, parseStrRest_esc]
    | cons y u =>
      have hr : renderArr (x :: y :: u) ++ ']' :: rest =
          '"' :: (escChars x.data ++ '"' :: (',' :: (renderArr (y :: u) ++ ']' :: rest))) := by
        simp [renderArr, serializeStr]
      rw [hr]
      obtain ⟨f', rfl⟩ : ∃ f', fuel = f' + 1 := by
        cases fuel with
        | zero =>
          exact (by simp only [List.length_cons] at hlen; omega : False).elim
        | succ f => exact ⟨f, rfl⟩
      have hlen2 : (y :: u).length ≤ f' + 1 := by
        simp only [List.length_cons] at hlen ⊢
        omega
      simp only [parseArrItems, if_pos rfl, parseStrRest_esc]
      rw [ih f' rest (List.cons_ne_nil y u) hlen2]
      simp

theorem parseVal_arr_cons (tl : List Char) :
    parseVal ('[' :: '"' :: tl) =
      Option.map (fun p => (JValue.arrStr p.1, p.2)) (parseArrItems (tl.length + 1) ('"' :: tl)) :=
  rfl

theorem parseVal_arr (xs : List String) (rest : List Char) :
    parseVal (serializeVal (.arrStr xs) ++ rest) = some (.arrStr xs, rest) := by
  cases xs with
  | nil => simp [serializeVal, renderArr, parseVal]
  | cons x t =>
    obtain ⟨tl, htl⟩ := renderArr_head x t
    have hshape : serializeVal (.arrStr (x :: t)) ++ rest =
        '[' :: (renderArr (x :: t) ++ ']' :: rest) := by
      simp [serializeVal]
    rw [hshape, htl, List.cons_append]
    have harrG : ∀ fuel, (x :: t).length ≤ fuel + 1 →
        parseArrItems fuel ('"' :: (tl ++ ']' :: rest)) = some (x :: t, rest) := by
      intro fuel hf
      conv =>
        lhs
        rw [← List.cons_append, ← htl]
      exact parseArrItems_render (x :: t) fuel rest (List.cons_ne_nil x t) hf
    rw [parseVal_arr_cons]
    rw [harrG ((tl ++ ']' :: rest).length + 1) ?hb]
    · rfl
    case hb =>
      have h1 := renderArr_len (x :: t)
      rw [htl] at h1
      simp only [List.length_append, List.length_cons] at h1 ⊢
      omega

theorem parseVal_serialize (v : JValue) (rest : List Char) (hrest : digitHead rest = false) :
    parseVal (serializeVal v ++ rest) = some (v, rest) := by
  cases v with
  | str s => exact parseVal_str s rest
  | int n => exact parseVal_int n rest hrest
  | bool b =>
    cases b
    · exact parseVal_bool_false rest
    · exact parseVal_bool_true rest
  | null => exact parseVal_null rest
  | arrStr xs => exact parseVal_arr xs rest

/- ## Object-member parsing lemmas and the marshal round trip -/

theorem memberChars_shape (k : String) (v : JValue) (rest : List Char) :
    memberChars (k, v) ++ rest =
      '"' :: (escChars k.data ++ '"' :: (':' :: (serializeVal v ++ rest))) := by
  simp [memberChars, serializeStr]

theorem renderMembers_head (kv : String × JValue) (ms : Fields) :
    ∃ t, renderMembers (kv :: ms) = '"' :: t := by
  obtain ⟨k, v⟩ := kv
  cases ms with
  | nil =>
    exact ⟨escChars k.data ++ ['"'] ++ ':' :: serializeVal v,
      by simp [renderMembers, memberChars, serializeStr]⟩
  | cons m2 t =>
    exact ⟨escChars k.data ++ ['"'] ++ ':' :: serializeVal v ++ ',' :: renderMembers (m2 :: t),
      by simp [renderMembers, memberChars, serializeStr]⟩

theorem renderMembers_len (ms : Fields) : ms.length ≤ (renderMembers ms).length := by
  induction ms with
  | nil => simp [renderMembers]
  | cons kv t ih =>
    have hk : 2 ≤ (serializeStr kv.1).length := serializeStr_len kv.1
    cases t with
    | nil =>
      rw [show renderMembers [kv] = memberChars kv from rfl,
        show memberChars kv = serializeStr kv.1 ++ ':' :: serializeVal kv.2 from rfl]
      simp only [List.length_append, List.length_cons, List.length_nil]
      omega
    | cons m2 u =>
      rw [show renderMembers (kv :: m2 :: u) =
            memberChars kv ++ ',' :: renderMembers (m2 :: u) from rfl,
        show memberChars kv = serializeStr kv.1 ++ ':' :: serializeVal kv.2 from rfl]
      simp only [List.length_append, List.length_cons, List.length_nil] at ih ⊢
      omega

theorem parseMembers_render (ms : Fields) : ∀ fuel rest, ms ≠ [] →
    ms.length ≤ fuel + 1 →
    parseMembers fuel (renderMembers ms ++ '}' :: rest) = some (ms, rest) := by
  induction ms with
  | nil => intro fuel rest h _; exact absurd rfl h
  | cons kv t ih =>
    intro fuel rest _ hlen
    obtain ⟨k, v⟩ := kv
    cases t with
    | nil =>
      rw [show renderMembers [(k, v)] = memberChars (k, v) from rfl, memberChars_shape]
      have hdh : digitHead ('}' :: rest) = false := rfl
      simp [parseMembers, parseStrRest_esc, parseVal_serialize v ('}' :: rest) hdh]
    | cons m2 u =>
      have hr : renderMembers ((k, v) :: m2 :: u) ++ '}' :: rest =
          '"' :: (escChars k.data ++ '"' ::
            (':' :: (serializeVal v ++ ',' :: (renderMembers (m2 :: u) ++ '}' :: rest)))) := by
        simp [renderMembers, memberChars, serializeStr]
      rw [hr]
      obtain ⟨f', rfl⟩ : ∃ f', fuel = f' + 1 := by
        cases fuel with
        | zero =>
          exact (by simp only [List.length_cons] at hlen; omega : False).elim
        | succ f => exact ⟨f, rfl⟩
      have hdh : digitHead (',' :: (renderMembers (m2 :: u) ++ '}' :: rest)) = false := rfl
      have hlen2 : (m2 :: u).length ≤ f' + 1 := by
        simp only [List.length_cons] at hlen ⊢
        omega
      simp only [parseMembers, if_pos rfl, parseStrRest_esc,
        parseVal_serialize v _ hdh]
      rw [ih f' rest (List.cons_ne_nil m2 u) hlen2]
      simp

theorem jsonParse_brace (rest : List Char) :
    jsonParse ('{' :: rest) =
      if rest = ['}'] then some []
      else
        match parseMembers rest.length rest with
        | some (mm, []) => some mm
        | _ => none :=
  rfl

theorem jsonParse_serializeObj (m : Fields) :
    jsonParse (serializeObj m) = some (sortByKey m) := by
  unfold serializeObj
  cases hms : sortByKey m with
  | nil => simp [jsonParse, renderMembers]
  | cons kv t =>
    obtain ⟨tl, htl⟩ := renderMembers_head kv t
    have hne : ¬ (renderMembers (kv :: t) ++ ['}'] = ['}']) := by
      rw [htl]
      simp
    have hbound : (kv :: t).length ≤ (renderMembers (kv :: t) ++ ['}']).length + 1 := by
      have h1 := renderMembers_len (kv :: t)
      simp only [List.length_append, List.length_cons, List.length_nil] at h1 ⊢
      omega
    rw [List.cons_append, jsonParse_brace, if_neg hne]
    rw [parseMembers_render (kv :: t) _ [] (List.cons_ne_nil kv t) hbound]

/- ## Multi-handler lemmas -/

/-- The last non-nil element of a list of optional errors (what "the
    last error encountered" means for the multi handler). -/
def lastError : List (Option Err) → Option Err
  | [] => none
  | o :: rest =>
    match lastError rest with
    | some e => some e
    | none => o

theorem lastError_getLast (es : List (Option Err)) :
    lastError es = (es.filterMap id).getLast? := by
  induction es with
  | nil => rfl
  | cons o t ih =>
    cases o with
    | none =>
      show (match lastError t with | some e => some e | none => none) =
        ((none :: t).filterMap id).getLast?
      rw [show (none :: t).filterMap id = t.filterMap id from by simp, ← ih]
      cases lastError t <;> rfl
    | some er =>
      show (match lastError t with | some e => some e | none => some er) =
        ((some er :: t).filterMap id).getLast?
      rw [show (some er :: t).filterMap id = er :: t.filterMap id from by simp]
      rw [ih]
      cases hfm : t.filterMap id with
      | nil => rfl
      | cons a l =>
        rw [List.getLast?_cons_cons]
        cases hl : (a :: l).getLast? with
        | none => simp at hl
        | some e' => rfl

theorem multiHandle_spec (hs : List Handler) (e : Entry) :
    MultiHandler.handle hs e =
      ⟨(hs.map fun h => (h e).writes).flatten,
       lastError (hs.map fun h => (h e).err)⟩ := by
  have haux : ∀ (l : List Handler) (w0 : List (Target × List Char)) (e0 : Option Err),
      l.foldl (fun (acc : List (Target × List Char) × Option Err) h =>
          let hr := h e
          (acc.1 ++ hr.writes, match hr.err with | some er => some er | none => acc.2))
        (w0, e0) =
      (w0 ++ (l.map fun h => (h e).writes).flatten,
       match lastError (l.map fun h => (h e).err) with
       | some er => some er
       | none => e0) := by
    intro l
    induction l with
    | nil => intro w0 e0; simp [lastError]
    | cons h t ih =>
      intro w0 e0
      simp only [List.foldl_cons, List.map_cons, List.flatten_cons]
      rw [ih]
      refine Prod.ext ?_ ?_
      · simp [List.append_assoc]
      · show (match lastError (t.map fun h => (h e).err) with
            | some er => some er
            | none => match (h e).err with | some er => some er | none => e0) =
          (match lastError ((h e).err :: t.map fun h => (h e).err) with
            | some er => some er
            | none => e0)
        rw [show lastError ((h e).err :: t.map fun h => (h e).err) =
              (match lastError (t.map fun h => (h e).err) with
                | some e' => some e'
                | none => (h e).err) from rfl]
        cases lastError (t.map fun h => (h e).err) <;> cases (h e).err <;> rfl
  simp only [MultiHandler.handle]
  rw [haux hs [] none]
  simp only [List.nil_append]
  cases lastError (hs.map fun h => (h e).err) <;> rfl

/- ## JSON formatter data-map lemmas -/

/-- The three attributes the JSON formatter writes before overlaying the
    entry's fields. -/
def jsonBase (e : Entry) : Fields :=
  [("level", .str (levelString e.level)),
   ("timestamp", .str (rfc3339 e.timestamp)),
   ("message", .str e.message)]

theorem jsonData_ff (rt : RuntimeInfo) (e : Entry) :
    jsonData ⟨false, false⟩ rt e =
      match e.error with
      | some er =>
        Fields.insert
          (if e.fields.length > 0 then Fields.merge (jsonBase e) e.fields else jsonBase e)
          "error" (.str er)
      | none =>
        (if e.fields.length > 0 then Fields.merge (jsonBase e) e.fields else jsonBase e) := by
  cases herr : e.error <;> simp [jsonData, jsonBase, herr]

theorem jsonBase_WF (e : Entry) : Fields.WF (jsonBase e) := by
  simp [jsonBase, Fields.WF, Fields.keys]

theorem d1_get (e : Entry) (hWF : Fields.WF e.fields) (k : String) :
    Fields.get (if e.fields.length > 0 then Fields.merge (jsonBase e) e.fields else jsonBase e)
        k = (Fields.get e.fields k).or (Fields.get (jsonBase e) k) := by
  by_cases hlen : e.fields.length > 0
  · rw [if_pos hlen]
    exact get_merge _ _ hWF k
  · have hnil : e.fields = [] := List.length_eq_zero.mp (by omega)
    rw [if_neg hlen, hnil]
    simp [Fields.get, Option.or]

theorem d1_WF (e : Entry) :
    Fields.WF (if e.fields.length > 0 then Fields.merge (jsonBase e) e.fields else jsonBase e) := by
  by_cases hlen : e.fields.length > 0
  · rw [if_pos hlen]
    exact WF_merge _ _ (jsonBase_WF e)
  · rw [if_neg hlen]
    exact jsonBase_WF e

theorem jsonData_ff_WF (rt : RuntimeInfo) (e : Entry) :
    Fields.WF (jsonData ⟨false, false⟩ rt e) := by
  rw [jsonData_ff]
  cases e.error with
  | none => exact d1_WF e
  | some er => exact WF_insert _ _ _ (d1_WF e)

/- ## Logger write-path helper lemmas -/

theorem log_exitCode (l : LoggerS) (ctx : Context) (lvl : Level) (msg : String)
    (err : Option Err) (fields : Fields) (ts tsFB : Time) :
    (l.log ctx lvl msg err fields ts tsFB).exitCode = none := by
  by_cases hlvl : lvl < l.config.level
  · simp [LoggerS.log, hlvl]
  · simp only [LoggerS.log, if_neg hlvl]
    cases herr : (l.handler ⟨lvl, ts, msg, Fields.merge l.fields fields, err, ctx⟩).err <;>
      simp [herr]

theorem log_handlerCalls (l : LoggerS) (ctx : Context) (lvl : Level) (msg : String)
    (err : Option Err) (fields : Fields) (ts tsFB : Time) (hlvl : ¬ lvl < l.config.level) :
    (l.log ctx lvl msg err fields ts tsFB).handlerCalls =
      [⟨lvl, ts, msg, Fields.merge l.fields fields, err, ctx⟩] := by
  simp only [LoggerS.log, if_neg hlvl]
  cases herr : (l.handler ⟨lvl, ts, msg, Fields.merge l.fields fields, err, ctx⟩).err <;>
    simp [herr]

/- ## Concrete fixtures used by witnesses and counterexamples -/

def t0 : Time := ⟨2024, 1, 2, 3, 4, 5, 0, 0⟩

def t1 : Time := ⟨2024, 1, 2, 3, 4, 6, 0, 0⟩

def rt0 : RuntimeInfo := ⟨none, []⟩

def cfg0 : Config := ⟨InfoLevel, "json", "stdout", "logs/app.log", 100, 3, 28, true, false, false⟩

def loggerW : LoggerS := ⟨cfg0, fun _ => ⟨[], none⟩, []⟩

def loggerF : LoggerS := ⟨cfg0, fun _ => ⟨[], some "disk full"⟩, []⟩

def failFmt : Formatter := fun _ => .error "boom"

def e0 : Entry := ⟨InfoLevel, t0, "m", [], none, ⟨⟩⟩

/- ## Claim theorems -/

/-- Claim C1: for every Logger with minimum level L2 and every log call at
    level L1 < L2, `log` returns immediately: the configured handler is
    invoked zero times, nothing is written to any sink, and the process
    does not exit. -/
theorem below_threshold_no_handler_call (l : LoggerS) (ctx : Context) (lvl : Level)
    (msg : String) (err : Option Err) (fields : Fields) (ts tsFB : Time)
    (h : lvl < l.config.level) :
    l.log ctx lvl msg err fields ts tsFB = ⟨[], [], none⟩ := by
  simp [LoggerS.log, h]

theorem below_threshold_no_handler_call_witness :
    DebugLevel < loggerW.config.level ∧
    loggerW.log ⟨⟩ DebugLevel "m" none [] t0 t1 = ⟨[], [], none⟩ :=
  ⟨by decide,
   below_threshold_no_handler_call loggerW ⟨⟩ DebugLevel "m" none [] t0 t1 (by decide)⟩

/-- Claim C2: `WithFields(C)` on a logger with base fields B yields a new
    logger whose entries carry the merged map (C wins on collision; keys of
    B not in C keep B's value), while the receiver still carries exactly B.
    In this value-semantics embedding neither B nor C can be mutated; the
    receiver's base-field component is left untouched by construction. -/
theorem withFields_merge_semantics (cfg : Config) (h : Handler) (B C : Fields) (ctx : Context)
    (lvl : Level) (msg : String) (err : Option Err) (ts tsFB : Time)
    (hWF : Fields.WF C) (hlvl : ¬ lvl < cfg.level) :
    (∀ k v, Fields.get C k = some v →
      Fields.get ((LoggerS.mk cfg h B).withFields C).fields k = some v) ∧
    (∀ k, Fields.get C k = none →
      Fields.get ((LoggerS.mk cfg h B).withFields C).fields k = Fields.get B k) ∧
    (LoggerS.mk cfg h B).fields = B ∧
    (((LoggerS.mk cfg h B).withFields C).log ctx lvl msg err [] ts tsFB).handlerCalls =
      [⟨lvl, ts, msg, Fields.merge B C, err, ctx⟩] ∧
    ((LoggerS.mk cfg h B).log ctx lvl msg err [] ts tsFB).handlerCalls =
      [⟨lvl, ts, msg, B, err, ctx⟩] := by
  refine ⟨?_, ?_, rfl, ?_, ?_⟩
  · intro k v hv
    show Fields.get (Fields.merge B C) k = some v
    rw [get_merge B C hWF k, hv]
    rfl
  · intro k hv
    show Fields.get (Fields.merge B C) k = Fields.get B k
    rw [get_merge B C hWF k, hv]
    rfl
  · exact log_handlerCalls _ ctx lvl msg err [] ts tsFB hlvl
  · exact log_handlerCalls _ ctx lvl msg err [] ts tsFB hlvl

theorem withFields_merge_semantics_witness :
    Fields.WF [("b", JValue.str "3"), ("c", JValue.str "4")] ∧
    ¬ InfoLevel < cfg0.level ∧
    ((∀ k v, Fields.get [("b", JValue.str "3"), ("c", JValue.str "4")] k = some v →
        Fields.get ((LoggerS.mk cfg0 (fun _ => ⟨[], none⟩)
            [("a", JValue.str "1"), ("b", JValue.str "2")]).withFields
          [("b", JValue.str "3"), ("c", JValue.str "4")]).fields k = some v) ∧
      (∀ k, Fields.get [("b", JValue.str "3"), ("c", JValue.str "4")] k = none →
        Fields.get ((LoggerS.mk cfg0 (fun _ => ⟨[], none⟩)
            [("a", JValue.str "1"), ("b", JValue.str "2")]).withFields
          [("b", JValue.str "3"), ("c", JValue.str "4")]).fields k =
          Fields.get [("a", JValue.str "1"), ("b", JValue.str "2")] k) ∧
      (LoggerS.mk cfg0 (fun _ => ⟨[], none⟩)
          [("a", JValue.str "1"), ("b", JValue.str "2")]).fields =
        [("a", JValue.str "1"), ("b", JValue.str "2")] ∧
      (((LoggerS.mk cfg0 (fun _ => ⟨[], none⟩)
            [("a", JValue.str "1"), ("b", JValue.str "2")]).withFields
          [("b", JValue.str "3"), ("c", JValue.str "4")]).log ⟨⟩ InfoLevel "m" none [] t0
          t1).handlerCalls =
        [⟨InfoLevel, t0, "m",
          Fields.merge [("a", JValue.str "1"), ("b", JValue.str "2")]
            [("b", JValue.str "3"), ("c", JValue.str "4")], none, ⟨⟩⟩] ∧
      (((LoggerS.mk cfg0 (fun _ => ⟨[], none⟩)
            [("a", JValue.str "1"), ("b", JValue.str "2")]).log ⟨⟩ InfoLevel "m" none [] t0
          t1).handlerCalls =
        [⟨InfoLevel, t0, "m", [("a", JValue.str "1"), ("b", JValue.str "2")], none, ⟨⟩⟩])) :=
  ⟨by decide, by decide,
   withFields_merge_semantics cfg0 (fun _ => ⟨[], none⟩)
     [("a", JValue.str "1"), ("b", JValue.str "2")]
     [("b", JValue.str "3"), ("c", JValue.str "4")] ⟨⟩ InfoLevel "m" none t0 t1
     (by decide) (by decide)⟩

/-- Claim C3: when the configured handler returns an error, the write call
    still returns normally (the result is an ordinary value, the process
    does not exit), the configured handler was invoked exactly once (the
    fallback does not go through it), and exactly one extra diagnostic
    write is made: to stderr, rendered by a plain Text formatter, for an
    Error-level entry with message "Failed to write log entry". -/
theorem handler_error_fallback (l : LoggerS) (ctx : Context) (lvl : Level) (msg : String)
    (err : Option Err) (fields : Fields) (ts tsFB : Time) (er : Err)
    (hlvl : ¬ lvl < l.config.level)
    (herr : (l.handler ⟨lvl, ts, msg, Fields.merge l.fields fields, err, ctx⟩).err = some er) :
    l.log ctx lvl msg err fields ts tsFB =
      ⟨(l.handler ⟨lvl, ts, msg, Fields.merge l.fields fields, err, ctx⟩).writes ++
          [(Target.stderr, textRender ⟨false, false⟩ ⟨none, []⟩
            ⟨ErrorLevel, tsFB, "Failed to write log entry", [], some er, ⟨⟩⟩)],
        [⟨lvl, ts, msg, Fields.merge l.fields fields, err, ctx⟩], none⟩ := by
  simp only [LoggerS.log, if_neg hlvl, herr]
  rfl

theorem handler_error_fallback_witness :
    (¬ InfoLevel < loggerF.config.level) ∧
    loggerF.log ⟨⟩ InfoLevel "m" none [] t0 t1 =
      ⟨(loggerF.handler ⟨InfoLevel, t0, "m", Fields.merge loggerF.fields [], none, ⟨⟩⟩).writes ++
          [(Target.stderr, textRender ⟨false, false⟩ ⟨none, []⟩
            ⟨ErrorLevel, t1, "Failed to write log entry", [], some "disk full", ⟨⟩⟩)],
        [⟨InfoLevel, t0, "m", Fields.merge loggerF.fields [], none, ⟨⟩⟩], none⟩ :=
  ⟨by decide,
   handler_error_fallback loggerF ⟨⟩ InfoLevel "m" none [] t0 t1 "disk full" (by decide) rfl⟩

/-- Claim C5: `Fatal` always terminates the process with the non-zero exit
    status 1, and only after the write path (including any fallback write)
    has completed: its writes and handler calls are exactly those of the
    ordinary write path at Fatal level. No other write method ever sets an
    exit code; `WithFields`/`WithContext` are pure logger constructors
    with no exit effect by their definitions. -/
theorem fatal_exits_others_do_not (l : LoggerS) (ctx : Context) (msg : String)
    (err : Option Err) (fields : Fields) (ts tsFB : Time) :
    (∃ code, (l.Fatal ctx msg err fields ts tsFB).exitCode = some code ∧ code ≠ 0) ∧
    (l.Fatal ctx msg err fields ts tsFB).writes =
      (l.log ctx FatalLevel msg err fields ts tsFB).writes ∧
    (l.Fatal ctx msg err fields ts tsFB).handlerCalls =
      (l.log ctx FatalLevel msg err fields ts tsFB).handlerCalls ∧
    (l.Debug ctx msg fields ts tsFB).exitCode = none ∧
    (l.Info ctx msg fields ts tsFB).exitCode = none ∧
    (l.Warn ctx msg fields ts tsFB).exitCode = none ∧
    (l.Error ctx msg err fields ts tsFB).exitCode = none :=
  ⟨⟨1, rfl, one_ne_zero⟩, rfl, rfl,
   log_exitCode l ctx DebugLevel msg none fields ts tsFB,
   log_exitCode l ctx InfoLevel msg none fields ts tsFB,
   log_exitCode l ctx WarnLevel msg none fields ts tsFB,
   log_exitCode l ctx ErrorLevel msg err fields ts tsFB⟩

/-- Claim C6: if the formatter fails, a Console or File handler performs
    no write at all (its write list is empty, so the sink is unchanged)
    and returns exactly the formatter's error. -/
theorem format_error_aborts_write (t : Target) (f : Formatter) (e : Entry) (er : Err)
    (h : f e = .error er) :
    ConsoleHandler.handle t f e = ⟨[], some er⟩ ∧
    FileHandler.handle f e = ⟨[], some er⟩ := by
  constructor <;> simp [ConsoleHandler.handle, FileHandler.handle, h]

theorem format_error_aborts_write_witness :
    failFmt e0 = .error "boom" ∧
    (ConsoleHandler.handle .stdout failFmt e0 = ⟨[], some "boom"⟩ ∧
      FileHandler.handle failFmt e0 = ⟨[], some "boom"⟩) :=
  ⟨rfl, format_error_aborts_write .stdout failFmt e0 "boom" rfl⟩

/-- Claim C7: the Multi handler invokes every member exactly once in list
    order regardless of earlier failures — its write trace is the ordered
    concatenation of every member's writes — and it returns the last error
    among the members' results (none if no member failed). -/
theorem multi_handler_all_members_last_error (hs : List Handler) (e : Entry) :
    MultiHandler.handle hs e =
      ⟨(hs.map fun h => (h e).writes).flatten,
        ((hs.map fun h => (h e).err).filterMap id).getLast?⟩ := by
  rw [multiHandle_spec, lastError_getLast]

/-- Claim C10: the Text formatter never fails — `Format` always returns
    its rendered bytes with a nil error — so the formatting-failure branch
    of the Console and File handlers' `Handle` is unreachable whenever the
    text format is configured (their returned error is always nil). -/
theorem text_format_never_fails (f : TextFormatter) (rt : RuntimeInfo) (e : Entry) (t : Target) :
    (∃ bs, TextFormatter.format f rt e = .ok bs) ∧
    (ConsoleHandler.handle t (TextFormatter.format f rt) e).err = none ∧
    (FileHandler.handle (TextFormatter.format f rt) e).err = none :=
  ⟨⟨textRender f rt e, rfl⟩, rfl, rfl⟩

/- ## JSON data-map lookup lemmas (caller/stack annotation disabled) -/

theorem jsonData_ff_get_base (rt : RuntimeInfo) (e : Entry) (hWF : Fields.WF e.fields)
    (k : String) (hk : ¬ k ∈ Fields.keys e.fields) (hke : ¬ k = "error") :
    Fields.get (jsonData ⟨false, false⟩ rt e) k = Fields.get (jsonBase e) k := by
  rw [jsonData_ff]
  have hnone : Fields.get e.fields k = none := (get_eq_none_iff _ _).2 hk
  cases herr : e.error with
  | none =>
    rw [d1_get e hWF k, hnone]
    simp [Option.or]
  | some er =>
    rw [get_insert, if_neg (fun hh => hke hh.symm), d1_get e hWF k, hnone]
    simp [Option.or]

theorem jsonData_ff_get_field (rt : RuntimeInfo) (e : Entry) (hWF : Fields.WF e.fields)
    (k : String) (v : JValue) (hv : Fields.get e.fields k = some v)
    (hke : k = "error" → e.error = none) :
    Fields.get (jsonData ⟨false, false⟩ rt e) k = some v := by
  rw [jsonData_ff]
  cases herr : e.error with
  | none =>
    rw [d1_get e hWF k, hv]
    rfl
  | some er =>
    have hkne : ¬ k = "error" := by
      intro hh
      rw [hke hh] at herr
      exact Option.noConfusion herr
    rw [get_insert, if_neg (fun hh => hkne hh.symm), d1_get e hWF k, hv]
    rfl

/-- Claim C4 (amended): formatting an entry with the JSON formatter
    (caller/stack annotation disabled) and parsing the result as JSON
    recovers the entry's level (as its level string), its message, its
    RFC3339 timestamp, and every call-site field, provided no field key
    collides with the formatter's own top-level keys: "level",
    "timestamp", "message", and "error" when an error is attached. -/
theorem json_roundtrip_amended (lvl : Level) (ts : Time) (msg : String) (fields : Fields)
    (err : Option Err) (ctx : Context) (rt : RuntimeInfo)
    (hWF : Fields.WF fields)
    (hres : ∀ k, k ∈ Fields.keys fields →
      ¬ k = "level" ∧ ¬ k = "timestamp" ∧ ¬ k = "message" ∧ (k = "error" → err = none)) :
    ∃ doc,
      JSONFormatter.format ⟨false, false⟩ rt ⟨lvl, ts, msg, fields, err, ctx⟩ =
        .ok (serializeObj (jsonData ⟨false, false⟩ rt ⟨lvl, ts, msg, fields, err, ctx⟩)) ∧
      jsonParse (serializeObj (jsonData ⟨false, false⟩ rt ⟨lvl, ts, msg, fields, err, ctx⟩)) =
        some doc ∧
      Fields.get doc "level" = some (.str (levelString lvl)) ∧
      Fields.get doc "message" = some (.str msg) ∧
      Fields.get doc "timestamp" = some (.str (rfc3339 ts)) ∧
      (∀ k v, Fields.get fields k = some v → Fields.get doc k = some v) := by
  refine ⟨sortByKey (jsonData ⟨false, false⟩ rt ⟨lvl, ts, msg, fields, err, ctx⟩), rfl,
    jsonParse_serializeObj _, ?_, ?_, ?_, ?_⟩
  · rw [get_sortByKey _ (jsonData_ff_WF _ _),
      jsonData_ff_get_base rt _ hWF "level"
        (fun hmem => (hres _ hmem).1 rfl) (by decide)]
    simp [jsonBase, Fields.get]
  · rw [get_sortByKey _ (jsonData_ff_WF _ _),
      jsonData_ff_get_base rt _ hWF "message"
        (fun hmem => (hres _ hmem).2.2.1 rfl) (by decide)]
    simp [jsonBase, Fields.get]
  · rw [get_sortByKey _ (jsonData_ff_WF _ _),
      jsonData_ff_get_base rt _ hWF "timestamp"
        (fun hmem => (hres _ hmem).2.1 rfl) (by decide)]
    simp [jsonBase, Fields.get]
  · intro k v hv
    rw [get_sortByKey _ (jsonData_ff_WF _ _)]
    exact jsonData_ff_get_field rt _ hWF k v hv
      (hres k (mem_keys_of_get_some _ _ _ hv)).2.2.2

theorem json_roundtrip_amended_witness :
    Fields.WF [("status", JValue.int 200), ("path", JValue.str "/health")] ∧
    (∃ doc,
      JSONFormatter.format ⟨false, false⟩ rt0
          ⟨InfoLevel, t0, "request completed",
            [("status", JValue.int 200), ("path", JValue.str "/health")], none, ⟨⟩⟩ =
        .ok (serializeObj (jsonData ⟨false, false⟩ rt0
          ⟨InfoLevel, t0, "request completed",
            [("status", JValue.int 200), ("path", JValue.str "/health")], none, ⟨⟩⟩)) ∧
      jsonParse (serializeObj (jsonData ⟨false, false⟩ rt0
          ⟨InfoLevel, t0, "request completed",
            [("status", JValue.int 200), ("path", JValue.str "/health")], none, ⟨⟩⟩)) =
        some doc ∧
      Fields.get doc "level" = some (.str (levelString InfoLevel)) ∧
      Fields.get doc "message" = some (.str "request completed") ∧
      Fields.get doc "timestamp" = some (.str (rfc3339 t0)) ∧
      (∀ k v,
        Fields.get [("status", JValue.int 200), ("path", JValue.str "/health")] k = some v →
        Fields.get doc k = some v)) :=
  ⟨by decide,
   json_roundtrip_amended InfoLevel t0 "request completed"
     [("status", JValue.int 200), ("path", JValue.str "/health")] none ⟨⟩ rt0
     (by decide) (by decide)⟩

def cexEntry : Entry := ⟨InfoLevel, t0, "m", [("level", JValue.str "X")], none, ⟨⟩⟩

/-- Counterexample to Claim C4 as stated: for the entry at level Info with
    the call-site field "level" ↦ "X", formatting with the JSON formatter
    and parsing the result yields "X" — not the entry's level string
    "INFO" — under the key "level": the field overwrote the entry's level
    in the marshalled object, so parsing does not recover the level. -/
theorem json_roundtrip_counterexample :
    JSONFormatter.format ⟨false, false⟩ rt0 cexEntry =
      .ok (serializeObj (jsonData ⟨false, false⟩ rt0 cexEntry)) ∧
    (jsonParse (serializeObj (jsonData ⟨false, false⟩ rt0 cexEntry))).bind
      (fun d => Fields.get d "level") = some (.str "X") ∧
    ¬ (JValue.str "X" = .str (levelString cexEntry.level)) := by
  refine ⟨rfl, ?_, by decide⟩
  rw [jsonParse_serializeObj]
  decide

/-- Claim C9 (amended): on a logger with the JSON formatter (caller/stack
    annotation disabled) and a stdout console handler, a call at or above
    the threshold writes exactly one chunk of bytes to stdout — a single
    JSON object, not newline-terminated — that parses back to an object
    carrying the entry's level string, its message, its RFC3339 timestamp,
    and every call-site field as a top-level key (field keys avoiding the
    reserved keys level/timestamp/message/error). -/
theorem console_json_line_amended (cfg : Config) (rt : RuntimeInfo) (ctx : Context)
    (lvl : Level) (msg : String) (fields : Fields) (err : Option Err) (ts tsFB : Time)
    (hlvl : ¬ lvl < cfg.level) (hWF : Fields.WF fields)
    (hres : ∀ k, k ∈ Fields.keys fields →
      ¬ k = "level" ∧ ¬ k = "timestamp" ∧ ¬ k = "message" ∧ (k = "error" → err = none)) :
    ∃ bs doc,
      (LoggerS.mk cfg (ConsoleHandler.handle .stdout (JSONFormatter.format ⟨false, false⟩ rt))
          []).log ctx lvl msg err fields ts tsFB =
        ⟨[(Target.stdout, bs)], [⟨lvl, ts, msg, Fields.merge [] fields, err, ctx⟩], none⟩ ∧
      jsonParse bs = some doc ∧
      Fields.get doc "level" = some (.str (levelString lvl)) ∧
      Fields.get doc "message" = some (.str msg) ∧
      Fields.get doc "timestamp" = some (.str (rfc3339 ts)) ∧
      (∀ k v, Fields.get fields k = some v → Fields.get doc k = some v) := by
  have hWFnil : Fields.WF ([] : Fields) := by simp [Fields.WF, Fields.keys]
  have hWFm : Fields.WF (Fields.merge [] fields) := WF_merge [] fields hWFnil
  have hgm : ∀ k, Fields.get (Fields.merge [] fields) k = Fields.get fields k := by
    intro k
    rw [get_merge [] fields hWF k]
    cases Fields.get fields k <;> simp [Fields.get, Option.or]
  have hmemm : ∀ k, k ∈ Fields.keys (Fields.merge [] fields) → k ∈ Fields.keys fields := by
    intro k hk
    by_contra hnk
    have h1 : Fields.get fields k = none := (get_eq_none_iff _ _).2 hnk
    have h2 : Fields.get (Fields.merge [] fields) k = none := by rw [hgm k, h1]
    exact ((get_eq_none_iff _ _).1 h2) hk
  refine ⟨serializeObj (jsonData ⟨false, false⟩ rt
      ⟨lvl, ts, msg, Fields.merge [] fields, err, ctx⟩),
    sortByKey (jsonData ⟨false, false⟩ rt ⟨lvl, ts, msg, Fields.merge [] fields, err, ctx⟩),
    ?_, jsonParse_serializeObj _, ?_, ?_, ?_, ?_⟩
  · simp only [LoggerS.log, if_neg hlvl]
    rfl
  · rw [get_sortByKey _ (jsonData_ff_WF _ _),
      jsonData_ff_get_base rt _ hWFm "level"
        (fun hmem => (hres _ (hmemm _ hmem)).1 rfl) (by decide)]
    simp [jsonBase, Fields.get]
  · rw [get_sortByKey _ (jsonData_ff_WF _ _),
      jsonData_ff_get_base rt _ hWFm "message"
        (fun hmem => (hres _ (hmemm _ hmem)).2.2.1 rfl) (by decide)]
    simp [jsonBase, Fields.get]
  · rw [get_sortByKey _ (jsonData_ff_WF _ _),
      jsonData_ff_get_base rt _ hWFm "timestamp"
        (fun hmem => (hres _ (hmemm _ hmem)).2.1 rfl) (by decide)]
    simp [jsonBase, Fields.get]
  · intro k v hv
    rw [get_sortByKey _ (jsonData_ff_WF _ _)]
    exact jsonData_ff_get_field rt _ hWFm k v (by rw [hgm k]; exact hv)
      (hres k (mem_keys_of_get_some _ _ _ hv)).2.2.2

theorem console_json_line_amended_witness :
    (¬ InfoLevel < cfg0.level) ∧
    Fields.WF [("status", JValue.int 200), ("path", JValue.str "/health")] ∧
    (∃ bs doc,
      (LoggerS.mk cfg0 (ConsoleHandler.handle .stdout (JSONFormatter.format ⟨false, false⟩ rt0))
          []).log ⟨⟩ InfoLevel "request completed" none
          [("status", JValue.int 200), ("path", JValue.str "/health")] t0 t1 =
        ⟨[(Target.stdout, bs)],
          [⟨InfoLevel, t0, "request completed",
            Fields.merge [] [("status", JValue.int 200), ("path", JValue.str "/health")],
            none, ⟨⟩⟩], none⟩ ∧
      jsonParse bs = some doc ∧
      Fields.get doc "level" = some (.str (levelString InfoLevel)) ∧
      Fields.get doc "message" = some (.str "request completed") ∧
      Fields.get doc "timestamp" = some (.str (rfc3339 t0)) ∧
      (∀ k v,
        Fields.get [("status", JValue.int 200), ("path", JValue.str "/health")] k = some v →
        Fields.get doc k = some v)) :=
  ⟨by decide, by decide,
   console_json_line_amended cfg0 rt0 ⟨⟩ InfoLevel "request completed"
     [("status", JValue.int 200), ("path", JValue.str "/health")] none t0 t1
     (by decide) (by decide) (by decide)⟩

def cexLogger : LoggerS :=
  ⟨cfg0, ConsoleHandler.handle .stdout (JSONFormatter.format ⟨false, false⟩ rt0), []⟩

def cexBytes : List Char :=
  serializeObj (jsonData ⟨false, false⟩ rt0
    ⟨InfoLevel, t0, "request completed", [("level", JValue.str "X")], none, ⟨⟩⟩)

/-- Counterexample to Claim C9 as stated: at an Info-level call on a
    JSON/stdout logger the single chunk written is not newline-terminated
    (its last byte is the closing brace), and with the call-site field
    "level" ↦ "X" the JSON object's "level" key carries "X", not the
    entry's level string "INFO". -/
theorem console_json_line_counterexample :
    cexLogger.log ⟨⟩ InfoLevel "request completed" none [("level", JValue.str "X")] t0 t1 =
      ⟨[(Target.stdout, cexBytes)],
        [⟨InfoLevel, t0, "request completed",
          Fields.merge [] [("level", JValue.str "X")], none, ⟨⟩⟩], none⟩ ∧
    ¬ cexBytes.getLast? = some '\n' ∧
    (jsonParse cexBytes).bind (fun d => Fields.get d "level") = some (.str "X") ∧
    ¬ (JValue.str "X" = .str (levelString InfoLevel)) := by
  refine ⟨by decide, by decide, ?_, by decide⟩
  rw [show cexBytes = serializeObj (jsonData ⟨false, false⟩ rt0
    ⟨InfoLevel, t0, "request completed", [("level", JValue.str "X")], none, ⟨⟩⟩) from rfl,
    jsonParse_serializeObj]
  decide

/- ## Configuration validation lemmas -/

def normLevel (c : Config) : Level :=
  if c.level < DebugLevel ∨ FatalLevel < c.level then InfoLevel else c.level

def normFormat (c : Config) : String :=
  if ¬ c.format = "json" ∧ ¬ c.format = "text" then "json" else c.format

def normOutput (c : Config) : String :=
  if ¬ c.output = "stdout" ∧ ¬ c.output = "stderr" ∧ ¬ c.output = "file" then "stdout"
  else c.output

theorem validate_eq (c : Config) (mk : Bool) :
    Config.validate c mk =
      if c.output = "file" ∧ mk = true then Except.error "failed to create log directory"
      else Except.ok
        { c with level := normLevel c, format := normFormat c, output := normOutput c } := by
  by_cases h1 : c.level < DebugLevel ∨ FatalLevel < c.level <;>
  by_cases h2 : ¬ c.format = "json" ∧ ¬ c.format = "text" <;>
  by_cases h3 : ¬ c.output = "stdout" ∧ ¬ c.output = "stderr" ∧ ¬ c.output = "file" <;>
    simp [Config.validate, normLevel, normFormat, normOutput, h1, h2, h3]

theorem newLogger_cases (c : Config) (mk : Bool) (rt : RuntimeInfo) :
    (c.output = "file" ∧ mk = true →
      NewLogger c mk rt = .error "failed to create log directory") ∧
    (¬ (c.output = "file" ∧ mk = true) → ∃ hdl, NewLogger c mk rt =
      .ok ⟨{ c with level := normLevel c, format := normFormat c, output := normOutput c },
        hdl, []⟩) := by
  constructor
  · intro hc
    unfold NewLogger
    rw [validate_eq, if_pos hc]
  · intro hc
    have hv : Config.validate c mk = .ok
        { c with level := normLevel c, format := normFormat c, output := normOutput c } := by
      rw [validate_eq, if_neg hc]
    unfold NewLogger
    rw [hv]
    dsimp only
    by_cases h1 : normOutput c = "stdout" ∨ normOutput c = "stderr"
    · rw [if_pos h1]
      rcases h1 with h | h <;> rw [h] <;> exact ⟨_, rfl⟩
    · rw [if_neg h1]
      by_cases h2 : normOutput c = "file"
      · rw [if_pos h2]
        exact ⟨_, rfl⟩
      · rw [if_neg h2]
        exact ⟨_, rfl⟩

/-- Claim C8: `NewLogger` fails exactly when the configured output is
    "file" and the log directory cannot be created; any unrecognized
    level, format, or output value is silently replaced by the defaults
    Info / "json" / "stdout" in the constructed logger's configuration. -/
theorem newLogger_defaults_and_file_error (c : Config) (mk : Bool) (rt : RuntimeInfo) :
    ((∃ e, NewLogger c mk rt = .error e) ↔ (c.output = "file" ∧ mk = true)) ∧
    (∀ l, NewLogger c mk rt = .ok l →
      ((c.level < DebugLevel ∨ FatalLevel < c.level) → l.config.level = InfoLevel) ∧
      ((¬ c.format = "json" ∧ ¬ c.format = "text") → l.config.format = "json") ∧
      ((¬ c.output = "stdout" ∧ ¬ c.output = "stderr" ∧ ¬ c.output = "file") →
        l.config.output = "stdout")) := by
  constructor
  · constructor
    · rintro ⟨e, he⟩
      by_contra hc
      obtain ⟨hdl, hok⟩ := (newLogger_cases c mk rt).2 hc
      rw [hok] at he
      exact Except.noConfusion he
    · intro hc
      exact ⟨_, (newLogger_cases c mk rt).1 hc⟩
  · intro l hl
    have hc : ¬ (c.output = "file" ∧ mk = true) := by
      intro hc
      rw [(newLogger_cases c mk rt).1 hc] at hl
      exact Except.noConfusion hl
    obtain ⟨hdl, hok⟩ := (newLogger_cases c mk rt).2 hc
    rw [hok] at hl
    have hinj := Except.ok.inj hl
    refine ⟨?_, ?_, ?_⟩
    · intro hbad
      rw [← hinj]
      show normLevel c = InfoLevel
      simp [normLevel, hbad]
    · intro hbad
      rw [← hinj]
      show normFormat c = "json"
      simp [normFormat, hbad]
    · intro hbad
      rw [← hinj]
      show normOutput c = "stdout"
      simp [normOutput, hbad]

def cfgFile : Config := ⟨InfoLevel, "json", "file", "logs/app.log", 100, 3, 28, true, false, false⟩

def cfgBad : Config := ⟨9, "xml", "socket", "logs/app.log", 100, 3, 28, true, false, false⟩

theorem newLogger_defaults_and_file_error_witness :
    (∃ e, NewLogger cfgFile true rt0 = .error e) ∧
    (∀ l, NewLogger cfgBad false rt0 = .ok l →
      ((cfgBad.level < DebugLevel ∨ FatalLevel < cfgBad.level) → l.config.level = InfoLevel) ∧
      ((¬ cfgBad.format = "json" ∧ ¬ cfgBad.format = "text") → l.config.format = "json") ∧
      ((¬ cfgBad.output = "stdout" ∧ ¬ cfgBad.output = "stderr" ∧ ¬ cfgBad.output = "file") →
        l.config.output = "stdout")) :=
  ⟨(newLogger_defaults_and_file_error cfgFile true rt0).1.mpr ⟨rfl, rfl⟩,
   (newLogger_defaults_and_file_error cfgBad false rt0).2⟩

end GinLog
